import Mathlib

/-!
Verification of `scripts/crawl_kde_wallpapers.py` (kabegame repository).

The script is a linear crawler pipeline: list content items from an XML API,
fetch per-item details, download each source archive with a bounded retry
loop, and extract archives.  This file gives a shallow embedding of the
script's pure logic and state-passing effects:

* strings are `List Char`; Python `str` methods are translated pointwise;
* the filesystem is the set of destination paths that exist (a `List` of
  paths), since the script only ever tests existence of destinations;
* network transports are oracles passed in as functions (per-attempt
  outcome for the downloader, per-id parsed XML response for the detail
  fetch);
* the three counters of `main` are an explicit record accumulated along
  the pipeline fold.
-/

/-! ## Characters and Python string primitives -/

/-- Characters replaced by `_` in `sanitize_filename`
(Python regex class `[<>:"/\\|?*]`, line 117 of the script). -/
def isForbiddenChar (c : Char) : Bool :=
  c == '<' || c == '>' || c == ':' || c == '"' || c == '/' || c == '\\' ||
    c == '|' || c == '?' || c == '*'

/-- Whitespace as matched by Python's `\s` on `str` (ASCII whitespace plus
the Unicode whitespace code points), used by `re.sub(r'\s+', '_', name)`. -/
def isPySpace (c : Char) : Bool :=
  let n := c.toNat
  (9 ≤ n && n ≤ 13) || n == 32 || (28 ≤ n && n ≤ 31) || n == 133 || n == 160 ||
    n == 5760 || (8192 ≤ n && n ≤ 8202) || n == 8232 || n == 8233 || n == 8239 ||
    n == 8287 || n == 12288

/-- Characters stripped from both ends by `name.strip('._')` (line 119). -/
def isStripChar (c : Char) : Bool := c == '.' || c == '_'

/-- Step one of `sanitize_filename`: `re.sub(r'[<>:"/\\|?*]', '_', name)`
(line 117), a pointwise replacement. -/
def replaceForbidden (l : List Char) : List Char :=
  l.map fun c => if isForbiddenChar c then '_' else c

/-- Step two of `sanitize_filename`: `re.sub(r'\s+', '_', name)` (line 118).
Each maximal run of whitespace becomes a single `_`; the boolean flag records
whether the previous character belonged to a whitespace run. -/
def collapseWsAux : Bool → List Char → List Char
  | _, [] => []
  | inRun, c :: cs =>
    if isPySpace c then
      if inRun then collapseWsAux true cs
      else '_' :: collapseWsAux true cs
    else c :: collapseWsAux false cs

/-- Collapse whitespace runs to single underscores, starting outside a run. -/
def collapseWs (l : List Char) : List Char := collapseWsAux false l

/-- Step three of `sanitize_filename`: `name.strip('._')` (line 119), removing
leading and trailing `.` and `_` characters. -/
def pyStrip (l : List Char) : List Char :=
  List.rdropWhile isStripChar (l.dropWhile isStripChar)

/-- Fallback result of `sanitize_filename` for an empty sanitized name
(`return name or "unknown"`, line 120). -/
def strUnknown : List Char := "unknown".toList

/-- The script's `sanitize_filename` (lines 114-120): replace forbidden
characters, collapse whitespace runs, strip `.`/`_` from the ends, and fall
back to `"unknown"` when the result is empty. -/
def sanitize_filename (l : List Char) : List Char :=
  if pyStrip (collapseWs (replaceForbidden l)) = [] then strUnknown
  else pyStrip (collapseWs (replaceForbidden l))

/-- Python `str.lower()` restricted to its ASCII action, used by the
orchestrator's `filename.lower()` and `url.lower()` tests (lines 230-232). -/
def pyLower (l : List Char) : List Char := l.map Char.toLower

/-! ## Substring and suffix machinery (Python `in` and `str.endswith`) -/

/-- Boolean test that the first list is an initial segment of the second. -/
def listIsPre : List Char → List Char → Bool
  | [], _ => true
  | _ :: _, [] => false
  | a :: as, b :: bs => a == b && listIsPre as bs

/-- Python's `pat in text` substring test on strings. -/
def listIsSub (pat : List Char) : List Char → Bool
  | [] => listIsPre pat []
  | c :: rest => listIsPre pat (c :: rest) || listIsSub pat rest

/-- Python's `text.endswith(suf)` suffix test. -/
def listEndsWith (suf l : List Char) : Bool := listIsPre suf.reverse l.reverse

/-- Locate the first occurrence of `pat` and return everything after it
(`none` when `pat` does not occur). -/
def afterSub? (pat : List Char) : List Char → Option (List Char)
  | [] => if listIsPre pat [] then some [] else none
  | c :: rest =>
    if listIsPre pat (c :: rest) then some ((c :: rest).drop pat.length)
    else afterSub? pat rest

/-! ## URL and filename handling of the orchestrator -/

/-- Scheme separator of an absolute URL. -/
def strSchemeSep : List Char := "://".toList

/-- Model of `urlparse(url).path` for the URLs the script handles: drop the
scheme and authority of an absolute URL, keep the path, and cut any query or
fragment part.  A URL without `://` is treated as a bare path. -/
def urlPath (url : List Char) : List Char :=
  match afterSub? strSchemeSep url with
  | some r =>
    (r.dropWhile fun c => !(c == '/')).takeWhile fun c => !(c == '?') && !(c == '#')
  | none => url.takeWhile fun c => !(c == '?') && !(c == '#')

/-- Model of `os.path.basename` on POSIX: the part after the last `/`. -/
def basename (path : List Char) : List Char :=
  (path.reverse.takeWhile fun c => !(c == '/')).reverse

/-- One numbered download link of a content item (`{"url": ..., "name": ...}`
built in `get_content_details`, lines 99-102). -/
structure DownloadLink where
  url : List Char
  name : List Char
deriving DecidableEq

/-- Archive-extension markers of line 230:
`['.tar.gz', '.tar.xz', '.tgz', '.zip', '.tar.bz2']`. -/
def extTarGz : List Char := ".tar.gz".toList

/-- The `.tar.xz` marker. -/
def extTarXz : List Char := ".tar.xz".toList

/-- The `.tgz` marker. -/
def extTgz : List Char := ".tgz".toList

/-- The `.zip` marker. -/
def extZip : List Char := ".zip".toList

/-- The `.tar.bz2` marker. -/
def extTarBz2 : List Char := ".tar.bz2".toList

/-- The extension list of line 230, in source order. -/
def ARCHIVE_EXTS : List (List Char) := [extTarGz, extTarXz, extTgz, extZip, extTarBz2]

/-- The literal `'download'` tested against `url.lower()` on line 232. -/
def strDownload : List Char := "download".toList

/-- Filename derivation of lines 224-227: `os.path.basename(urlparse(url).path)`,
falling back to the declared download name when the basename is empty. -/
def derivedFilename (dl : DownloadLink) : List Char :=
  if basename (urlPath dl.url) = [] then dl.name else basename (urlPath dl.url)

/-- The orchestrator's source-archive test of line 230:
`any(ext in filename.lower() for ext in [...])` — a substring test. -/
def hasArchiveSub (filename : List Char) : Bool :=
  ARCHIVE_EXTS.any fun ext => listIsSub ext (pyLower filename)

/-- Line 232's `'download' in url.lower()`. -/
def containsDownload (url : List Char) : Bool := listIsSub strDownload (pyLower url)

/-- Filename resolution of lines 229-236: keep the derived filename when the
archive-substring test accepts it; otherwise synthesize
`<plugin>.tar.gz` when the URL contains `download`, else reject the link
(`continue` on line 236).  Returns the final filename, or `none` when the link
is passed over. -/
def resolveFilename (plugin : List Char) (dl : DownloadLink) : Option (List Char) :=
  if hasArchiveSub (derivedFilename dl) then some (derivedFilename dl)
  else if containsDownload dl.url then some (plugin ++ extTarGz)
  else none

/-- Reading of C8's hypothesis with "carries a recognized archive extension"
taken literally as a suffix test, written from the spec's words for
comparison against the source's substring test `hasArchiveSub`. -/
def specArchiveSuffixTest (filename : List Char) : Bool :=
  ARCHIVE_EXTS.any fun ext => listEndsWith ext (pyLower filename)

/-! ## Archive extractor (`extract_archive`, lines 159-174) -/

/-- Tar-family suffixes of line 162, in source order; the test there is
`str(archive_path).endswith((...))`, a case-sensitive suffix test. -/
def TAR_SUFFIXES : List (List Char) := [extTarGz, extTgz, extTarXz, extTarBz2]

/-- The script's `extract_archive`: dispatch on the filename suffix to the tar
or zip extractor, return `False` when no rule matches, and catch every
extraction exception, turning it into `False` (lines 159-174).  The two
extractors are oracles: `Except.ok` models a completed `extractall`,
`Except.error` models a raised exception. -/
def extract_archive (tarRes zipRes : Except (List Char) Unit) (path : List Char) : Bool :=
  let body : Except (List Char) Bool :=
    if TAR_SUFFIXES.any (fun s => listEndsWith s path) then Except.map (fun _ => true) tarRes
    else if listEndsWith extZip path then Except.map (fun _ => true) zipRes
    else Except.ok false
  match body with
  | Except.ok b => b
  | Except.error _ => false

/-! ## Downloader (`download_file`, lines 123-156) -/

/-- Configuration constants of lines 23-24. -/
def MAX_RETRIES : Nat := 3

/-- Retry delay in seconds (line 24). -/
def RETRY_DELAY : Nat := 10

/-- What the transport does on one attempt of `download_file`:
a 429 status, a `RequestException` before any byte is written (connection
error, timeout, or `raise_for_status`), a stream that breaks after writing
a prefix of the body (the written bytes stay on disk), or a full body. -/
inductive AttemptOutcome where
  | status429
  | connError
  | streamBroken (written : List Nat)
  | fullBody (content : List Nat)
deriving DecidableEq

/-- Result of a `download_file` run: the returned boolean, the final content
at the destination path (`none` when no file exists), the sequence of
`time.sleep` waits in seconds, and the number of attempts consumed. -/
structure DlResult where
  ok : Bool
  file : Option (List Nat)
  waits : List Nat
  attempts : Nat
deriving DecidableEq

/-- The retry loop of `download_file` (lines 125-156).  `remaining` counts the
loop iterations left out of `MAX_RETRIES`, `attempt` is the Python loop index:
a 429 always sleeps `RETRY_DELAY * (attempt+1)` then retries (lines 131-135);
a `RequestException` sleeps and retries unless this was the final attempt
(lines 148-155); `open(path, "wb")` truncates, so a broken stream leaves its
written prefix as the file; running out of iterations returns `False`
(line 156). -/
def download_go (o : Nat → AttemptOutcome) :
    Nat → Nat → Option (List Nat) → List Nat → DlResult
  | 0, attempt, file, ws => ⟨false, file, ws, attempt⟩
  | remaining + 1, attempt, file, ws =>
    match o attempt with
    | AttemptOutcome.status429 =>
        download_go o remaining (attempt + 1) file (ws ++ [RETRY_DELAY * (attempt + 1)])
    | AttemptOutcome.connError =>
        if attempt < MAX_RETRIES - 1 then
          download_go o remaining (attempt + 1) file (ws ++ [RETRY_DELAY * (attempt + 1)])
        else ⟨false, file, ws, attempt + 1⟩
    | AttemptOutcome.streamBroken w =>
        if attempt < MAX_RETRIES - 1 then
          download_go o remaining (attempt + 1) (some w) (ws ++ [RETRY_DELAY * (attempt + 1)])
        else ⟨false, some w, ws, attempt + 1⟩
    | AttemptOutcome.fullBody content => ⟨true, some content, ws, attempt + 1⟩

/-- The script's `download_file` run against transport oracle `o`, starting
from destination content `file0`. -/
def download_file (o : Nat → AttemptOutcome) (file0 : Option (List Nat)) : DlResult :=
  download_go o MAX_RETRIES 0 file0 []

/-! ## XML responses and the detail fetcher (`get_content_details`) -/

/-- A parsed XML forest, sibling-chained: `elem tag text children next` is an
element followed by its next sibling, and `nil` ends a sibling chain.  A whole
document is a single `elem` whose `next` is `nil`.  `ET.fromstring` and the
HTTP transport of `get_content_details` are abstracted away: the server
oracle hands back the parsed response root directly. -/
inductive Xml : Type where
  | elem (tag : List Char) (textOf : Option (List Char)) (children : Xml) (next : Xml) : Xml
  | nil : Xml
deriving DecidableEq

/-- Children forest of an element (`nil` for `nil`). -/
def Xml.childrenOf : Xml → Xml
  | Xml.elem _ _ ch _ => ch
  | Xml.nil => Xml.nil

/-- Model of `root.find(".//tag")` applied to a forest: the first element with
the given tag in document order — each element is checked before its subtree,
and a subtree before the following siblings.  The found element is returned
detached from its siblings. -/
def findDescIn (tagName : List Char) : Xml → Option Xml
  | Xml.nil => none
  | Xml.elem t x ch next =>
    if t == tagName then some (Xml.elem t x ch Xml.nil)
    else
      match findDescIn tagName ch with
      | some r => some r
      | none => findDescIn tagName next

/-- Text of the first direct child with the given tag: `none` when there is no
such child, `some t` for its text field otherwise. -/
def childText? (tagName : List Char) : Xml → Option (Option (List Char))
  | Xml.nil => none
  | Xml.elem t x _ next => if t == tagName then some x else childText? tagName next

/-- Model of `elem.findtext(tag, default)`: the text of the first direct child
with the given tag, the empty string when that child has no text, and the
default when there is no such child. -/
def findtext (tagName dflt : List Char) (e : Xml) : List Char :=
  match childText? tagName e.childrenOf with
  | none => dflt
  | some none => []
  | some (some t) => t

/-- The record built by `get_content_details` (lines 104-111). -/
structure ContentDetail where
  id : List Char
  name : List Char
  version : List Char
  personid : List Char
  description : List Char
  downloads : List DownloadLink
deriving DecidableEq

/-- The ASCII digit of `i` for `i < 10`, used to form `downloadlink{i}`. -/
def digitOf (i : Nat) : Char := Char.ofNat (48 + i)

/-- Tag `content`. -/
def strContentTag : List Char := "content".toList

/-- Tag `id`. -/
def strIdTag : List Char := "id".toList

/-- Tag `name`. -/
def strNameTag : List Char := "name".toList

/-- Tag `version`. -/
def strVersionTag : List Char := "version".toList

/-- Tag `personid`. -/
def strPersonidTag : List Char := "personid".toList

/-- Tag `description`. -/
def strDescriptionTag : List Char := "description".toList

/-- Tag stem `downloadlink`. -/
def strDownloadlinkTag : List Char := "downloadlink".toList

/-- Tag stem `downloadname`. -/
def strDownloadnameTag : List Char := "downloadname".toList

/-- Name stem `file` of the `f"file{i}"` fallback (line 101). -/
def strFileStem : List Char := "file".toList

/-- The script's `get_content_details` (lines 80-111) applied to a parsed
response root: find the first `content` element (`none` when absent, line 90),
then collect `downloadlink1..downloadlink9` with their `downloadname{i}`,
keeping an index only when its link text is non-empty and defaulting its
display name to `file{i}` (lines 94-102). -/
def get_content_details (root : Xml) : Option ContentDetail :=
  match findDescIn strContentTag root.childrenOf with
  | none => none
  | some content =>
    some
      { id := findtext strIdTag [] content
        name := findtext strNameTag [] content
        version := findtext strVersionTag [] content
        personid := findtext strPersonidTag [] content
        description := findtext strDescriptionTag [] content
        downloads := (List.range' 1 9).filterMap fun i =>
          let link := findtext (strDownloadlinkTag ++ [digitOf i]) [] content
          let nm := findtext (strDownloadnameTag ++ [digitOf i]) [] content
          if link = [] then none
          else some ⟨link, if nm = [] then strFileStem ++ [digitOf i] else nm⟩ }

/-! ## Orchestrator (`main`, lines 177-256) -/

/-- One entry of the listing used by `main`'s loop: only `id` and `name` feed
the per-item processing (lines 202-210). -/
structure ItemSummary where
  id : List Char
  name : List Char
deriving DecidableEq

/-- Net effect of one `download_file` call as seen by the orchestrator:
success (file written), failure leaving no file, or failure leaving a
partial file at the destination (a stream that broke mid-write on the last
attempt). -/
inductive DLOutcome where
  | success
  | failClean
  | failDirty
deriving DecidableEq

/-- The three counters of `main` (lines 196-198). -/
structure Counters where
  downloaded : Nat
  skipped : Nat
  failed : Nat
deriving DecidableEq

/-- Componentwise sum of counter increments. -/
def Counters.add (a b : Counters) : Counters :=
  ⟨a.downloaded + b.downloaded, a.skipped + b.skipped, a.failed + b.failed⟩

instance : Add Counters := ⟨Counters.add⟩

/-- A destination path `plugin_dir / filename` (line 238), as the pair of the
sanitized plugin directory name and the resolved filename. -/
abbrev CrawlPath := List Char × List Char

/-- The filesystem as the list of destination paths that exist. -/
abbrev CrawlFS := List CrawlPath

/-- Destination path of one link, or `none` when the link is passed over:
an empty URL is skipped on line 220-221, and `resolveFilename` returns `none`
for the `continue` of line 236. -/
def resolvePath (plugin : List Char) (dl : DownloadLink) : Option CrawlPath :=
  if dl.url = [] then none
  else (resolveFilename plugin dl).map fun f => (plugin, f)

/-- The body of `main`'s per-link loop (lines 218-256): pass over links with
no resolved destination; skip (counting `skipped_count`) when the destination
exists (lines 240-244); otherwise consult the download oracle — success
counts `downloaded_count` and creates the file, clean failure counts
`failed_count`, dirty failure counts `failed_count` but leaves a partial
file at the destination.  Extraction (lines 251-254) writes only under the
separate `src` subdirectory, never a destination path, so it does not touch
this filesystem model. -/
def stepLink (dlo : List Char → DLOutcome) (plugin : List Char) (dl : DownloadLink)
    (fs : CrawlFS) : CrawlFS × Counters :=
  match resolvePath plugin dl with
  | none => (fs, ⟨0, 0, 0⟩)
  | some path =>
    if path ∈ fs then (fs, ⟨0, 1, 0⟩)
    else
      match dlo dl.url with
      | DLOutcome.success => (path :: fs, ⟨1, 0, 0⟩)
      | DLOutcome.failClean => (fs, ⟨0, 0, 1⟩)
      | DLOutcome.failDirty => (path :: fs, ⟨0, 0, 1⟩)

/-- Fold of `stepLink` over the download links of one item, accumulating
counter increments. -/
def runLinks (dlo : List Char → DLOutcome) (plugin : List Char) :
    List DownloadLink → CrawlFS → CrawlFS × Counters
  | [], fs => (fs, ⟨0, 0, 0⟩)
  | dl :: rest, fs =>
    let r1 := stepLink dlo plugin dl fs
    let r2 := runLinks dlo plugin rest r1.1
    (r2.1, r1.2 + r2.2)

/-- The per-item body of `main`'s loop (lines 202-256): fetch details through
the server oracle; absent details or an empty download list count one
`failed_count` (lines 212-215); otherwise process every link under the
sanitized plugin directory name (line 203). -/
def processItem (dlo : List Char → DLOutcome) (server : List Char → Xml)
    (it : ItemSummary) (fs : CrawlFS) : CrawlFS × Counters :=
  match get_content_details (server it.id) with
  | none => (fs, ⟨0, 0, 1⟩)
  | some d =>
    if d.downloads = [] then (fs, ⟨0, 0, 1⟩)
    else runLinks dlo (sanitize_filename it.name) d.downloads fs

/-- One full pipeline run of `main` over the listed items, from a given
filesystem, with counters starting at zero (lines 196-256). -/
def runItems (dlo : List Char → DLOutcome) (server : List Char → Xml) :
    List ItemSummary → CrawlFS → CrawlFS × Counters
  | [], fs => (fs, ⟨0, 0, 0⟩)
  | it :: rest, fs =>
    let r1 := processItem dlo server it fs
    let r2 := runItems dlo server rest r1.1
    (r2.1, r1.2 + r2.2)

/-- Destination paths of the links of one item that reach the download stage. -/
def linkPaths (plugin : List Char) (links : List DownloadLink) : List CrawlPath :=
  links.filterMap (resolvePath plugin)

/-- Destination paths contributed by one item. -/
def itemPaths (server : List Char → Xml) (it : ItemSummary) : List CrawlPath :=
  match get_content_details (server it.id) with
  | none => []
  | some d =>
    if d.downloads = [] then [] else linkPaths (sanitize_filename it.name) d.downloads

/-- All destination paths of one pipeline run, in processing order. -/
def allPaths (server : List Char → Xml) (items : List ItemSummary) : List CrawlPath :=
  (items.map (itemPaths server)).flatten

/-! ## Concrete instances used by counterexamples and witnesses -/

/-- Sample crawler input used to witness C5 and C6 concretely. -/
def strCoolWall : List Char := "Cool Wall/paper".toList

/-- The string `"..."`, an edge-case sanitizer input named by the spec. -/
def strDots : List Char := "...".toList

/-- Concrete file names for the extractor dispatch claims. -/
def strPluginTarGz : List Char := "plugin.tar.gz".toList

/-- A zip archive name. -/
def strPluginZip : List Char := "plugin.zip".toList

/-- A name with no recognized archive suffix. -/
def strPluginExe : List Char := "plugin.exe".toList

/-- A filename whose archive marker occurs only in the middle. -/
def strNotesZipTxt : List Char := "notes.zip.txt".toList

/-- URL whose path basename is `notes.zip.txt` and which does not contain
the substring `download`. -/
def strNotesUrl : List Char := "https://a/notes.zip.txt".toList

/-- Download link for that URL. -/
def dlNotes : DownloadLink := ⟨strNotesUrl, []⟩

/-- An indirect-download URL with no filename extension in its path. -/
def strIndirectUrl : List Char := "https://x/download".toList

/-- Download link for the indirect URL. -/
def dlIndirect : DownloadLink := ⟨strIndirectUrl, []⟩

/-- A link that is neither an archive nor an indirect download. -/
def strReadmeUrl : List Char := "https://a/readme.txt".toList

/-- Download link for the readme URL. -/
def dlReadme : DownloadLink := ⟨strReadmeUrl, []⟩

/-- A plugin directory name. -/
def strP : List Char := "p".toList

/-- Transport oracle that always answers 429. -/
def oracle429 : Nat → AttemptOutcome := fun _ => AttemptOutcome.status429

/-- Transport oracle that always fails before writing. -/
def oracleConnErr : Nat → AttemptOutcome := fun _ => AttemptOutcome.connError

/-- Transport oracle whose first attempt breaks mid-stream after writing one
chunk and whose later attempts fail before writing. -/
def oracleDirty : Nat → AttemptOutcome := fun n =>
  if n = 0 then AttemptOutcome.streamBroken [7] else AttemptOutcome.connError

/-- Download oracle for the pipeline that always succeeds. -/
def dloAlwaysOk : List Char → DLOutcome := fun _ => DLOutcome.success

/-- Tag `ocs`, the response root of the OCS API. -/
def strOcsTag : List Char := "ocs".toList

/-- The id string `"99"`. -/
def str99 : List Char := "99".toList

/-- The id string `"42"`. -/
def str42 : List Char := "42".toList

/-- The id string `"1"`. -/
def strOne : List Char := "1".toList

/-- A detail response whose content element carries id `99`. -/
def respMismatched : Xml :=
  Xml.elem strOcsTag none
    (Xml.elem strContentTag none (Xml.elem strIdTag (some str99) Xml.nil Xml.nil) Xml.nil)
    Xml.nil

/-- The detail record parsed from `respMismatched`. -/
def detailMismatched : ContentDetail := ⟨str99, [], [], [], [], []⟩

/-- A detail response whose content element echoes the queried id `42`. -/
def respEcho : Xml :=
  Xml.elem strOcsTag none
    (Xml.elem strContentTag none (Xml.elem strIdTag (some str42) Xml.nil Xml.nil) Xml.nil)
    Xml.nil

/-- The detail record parsed from `respEcho`. -/
def detailEcho : ContentDetail := ⟨str42, [], [], [], [], []⟩

/-- A response with no content element at all. -/
def respEmpty : Xml := Xml.elem strOcsTag none Xml.nil Xml.nil

/-- Two URLs with the same path basename `cool.tar.gz` on different hosts. -/
def strUrlCoolA : List Char := "https://a/cool.tar.gz".toList

/-- The second colliding URL. -/
def strUrlCoolB : List Char := "https://b/cool.tar.gz".toList

/-- A detail response carrying the two colliding download links. -/
def respTwoLinks : Xml :=
  Xml.elem strOcsTag none
    (Xml.elem strContentTag none
      (Xml.elem strIdTag (some strOne) Xml.nil
        (Xml.elem (strDownloadlinkTag ++ [digitOf 1]) (some strUrlCoolA) Xml.nil
          (Xml.elem (strDownloadlinkTag ++ [digitOf 2]) (some strUrlCoolB) Xml.nil Xml.nil)))
      Xml.nil)
    Xml.nil

/-- A detail response carrying only the first of those links. -/
def respOneLink : Xml :=
  Xml.elem strOcsTag none
    (Xml.elem strContentTag none
      (Xml.elem strIdTag (some strOne) Xml.nil
        (Xml.elem (strDownloadlinkTag ++ [digitOf 1]) (some strUrlCoolA) Xml.nil Xml.nil))
      Xml.nil)
    Xml.nil

/-- Server oracle answering every query with `respTwoLinks`. -/
def serverTwoLinks : List Char → Xml := fun _ => respTwoLinks

/-- Server oracle answering every query with `respOneLink`. -/
def serverOneLink : List Char → Xml := fun _ => respOneLink

/-- Server oracle answering every query with `respEmpty`. -/
def serverEmpty : List Char → Xml := fun _ => respEmpty

/-- A one-item listing named `p` with id `1`. -/
def itemsOne : List ItemSummary := [⟨strOne, strP⟩]

/-! ## Lemmas about the sanitizer -/

theorem replaceForbidden_no_forbidden (l : List Char) :
    ∀ c ∈ replaceForbidden l, isForbiddenChar c = false := by
  intro c hc
  rcases List.mem_map.mp hc with ⟨x, _, hx⟩
  by_cases h : isForbiddenChar x
  · rw [← hx, if_pos h]; decide
  · rw [← hx, if_neg h]; simpa using h

theorem collapseWsAux_mem (l : List Char) :
    ∀ b, ∀ c ∈ collapseWsAux b l, c = '_' ∨ c ∈ l := by
  induction l with
  | nil => intro b c hc; simp [collapseWsAux] at hc
  | cons x xs ih =>
    intro b c hc
    by_cases hx : isPySpace x
    · cases b <;> simp only [collapseWsAux, hx, if_true, if_false] at hc
      · rcases List.mem_cons.mp hc with h | h
        · exact Or.inl h
        · rcases ih true c h with h' | h'
          · exact Or.inl h'
          · exact Or.inr (List.mem_cons_of_mem x h')
      · rcases ih true c hc with h' | h'
        · exact Or.inl h'
        · exact Or.inr (List.mem_cons_of_mem x h')
    · simp only [collapseWsAux, hx, Bool.false_eq_true, if_false] at hc
      rcases List.mem_cons.mp hc with h | h
      · exact Or.inr (h ▸ List.mem_cons_self x xs)
      · rcases ih false c h with h' | h'
        · exact Or.inl h'
        · exact Or.inr (List.mem_cons_of_mem x h')

theorem collapseWsAux_no_space (l : List Char) :
    ∀ b, ∀ c ∈ collapseWsAux b l, isPySpace c = false := by
  induction l with
  | nil => intro b c hc; simp [collapseWsAux] at hc
  | cons x xs ih =>
    intro b c hc
    by_cases hx : isPySpace x
    · cases b <;> simp only [collapseWsAux, hx, if_true, if_false] at hc
      · rcases List.mem_cons.mp hc with h | h
        · subst h; decide
        · exact ih true c h
      · exact ih true c hc
    · simp only [collapseWsAux, hx, Bool.false_eq_true, if_false] at hc
      rcases List.mem_cons.mp hc with h | h
      · subst h; simpa using hx
      · exact ih false c h

theorem collapseWsAux_noop (l : List Char)
    (h : ∀ c ∈ l, isPySpace c = false) : ∀ b, collapseWsAux b l = l := by
  induction l with
  | nil => intro b; rfl
  | cons x xs ih =>
    intro b
    have hx : isPySpace x = false := h x (List.mem_cons_self x xs)
    simp only [collapseWsAux, hx, Bool.false_eq_true, if_false]
    rw [ih (fun c hc => h c (List.mem_cons_of_mem x hc)) false]

theorem replaceForbidden_noop :
    ∀ l : List Char, (∀ c ∈ l, isForbiddenChar c = false) → replaceForbidden l = l := by
  intro l
  induction l with
  | nil => intro _; rfl
  | cons x xs ih =>
    intro h
    have hx : isForbiddenChar x = false := h x (List.mem_cons_self x xs)
    simp only [replaceForbidden, List.map_cons] at ih ⊢
    rw [if_neg (by simp [hx]), ih (fun c hc => h c (List.mem_cons_of_mem x hc))]

theorem dropWhile_head_false (p : Char → Bool) :
    ∀ (l : List Char) (x : Char) (xs : List Char),
      List.dropWhile p l = x :: xs → p x = false := by
  intro l
  induction l with
  | nil => intro x xs h; simp at h
  | cons c cs ih =>
    intro x xs h
    by_cases hc : p c
    · rw [List.dropWhile_cons_of_pos hc] at h; exact ih x xs h
    · rw [List.dropWhile_cons_of_neg hc] at h
      cases h
      simpa using hc

theorem pyStrip_idem (l : List Char) : pyStrip (pyStrip l) = pyStrip l := by
  unfold pyStrip
  cases hr : List.rdropWhile isStripChar (l.dropWhile isStripChar) with
  | nil => simp
  | cons x xs =>
    obtain ⟨t, ht⟩ := List.rdropWhile_prefix isStripChar (l.dropWhile isStripChar)
    rw [hr] at ht
    have hx : isStripChar x = false :=
      dropWhile_head_false isStripChar l x (xs ++ t) ht.symm
    rw [List.dropWhile_cons_of_neg (by simp [hx])]
    have hidem := List.rdropWhile_idempotent isStripChar (l.dropWhile isStripChar)
    rw [hr] at hidem
    exact hidem

theorem pyStrip_subset (l : List Char) (c : Char) (h : c ∈ pyStrip l) : c ∈ l := by
  unfold pyStrip at h
  have h1 : c ∈ l.dropWhile isStripChar := by
    unfold List.rdropWhile at h
    have hsub := List.dropWhile_subset (l := (l.dropWhile isStripChar).reverse) isStripChar
    have h2 := List.mem_reverse.mpr h
    rw [List.reverse_reverse] at h2
    exact List.mem_reverse.mp (hsub h2)
  exact List.dropWhile_subset isStripChar h1

theorem sanitize_no_forbidden (l : List Char) :
    ∀ c ∈ sanitize_filename l, isForbiddenChar c = false := by
  intro c hc
  unfold sanitize_filename at hc
  by_cases h : pyStrip (collapseWs (replaceForbidden l)) = []
  · rw [if_pos h] at hc
    revert c
    decide
  · rw [if_neg h] at hc
    have h1 := pyStrip_subset _ c hc
    rcases collapseWsAux_mem (replaceForbidden l) false c h1 with h2 | h2
    · subst h2; decide
    · exact replaceForbidden_no_forbidden l c h2

theorem sanitize_no_space (l : List Char) :
    ∀ c ∈ sanitize_filename l, isPySpace c = false := by
  intro c hc
  unfold sanitize_filename at hc
  by_cases h : pyStrip (collapseWs (replaceForbidden l)) = []
  · rw [if_pos h] at hc
    revert c
    decide
  · rw [if_neg h] at hc
    exact collapseWsAux_no_space (replaceForbidden l) false c (pyStrip_subset _ c hc)

theorem sanitize_nonempty (l : List Char) : sanitize_filename l ≠ [] := by
  unfold sanitize_filename
  by_cases h : pyStrip (collapseWs (replaceForbidden l)) = []
  · rw [if_pos h]; decide
  · rw [if_neg h]; exact h

theorem sanitize_idem (l : List Char) :
    sanitize_filename (sanitize_filename l) = sanitize_filename l := by
  have hrf : replaceForbidden (sanitize_filename l) = sanitize_filename l :=
    replaceForbidden_noop _ (sanitize_no_forbidden l)
  have hcw : collapseWs (sanitize_filename l) = sanitize_filename l :=
    collapseWsAux_noop _ (sanitize_no_space l) false
  have hps : pyStrip (sanitize_filename l) = sanitize_filename l := by
    unfold sanitize_filename
    by_cases h : pyStrip (collapseWs (replaceForbidden l)) = []
    · rw [if_pos h]; decide
    · rw [if_neg h]; exact pyStrip_idem _
  have hne := sanitize_nonempty l
  generalize hy : sanitize_filename l = y at hrf hcw hps hne ⊢
  show sanitize_filename y = y
  unfold sanitize_filename
  rw [hrf, hcw, hps, if_neg hne]

/-! ## Claim C5 -/

/-- C5: the sanitizer is idempotent — `sanitize(sanitize(x)) = sanitize(x)`
for every input string — and deterministic: equal inputs give equal outputs. -/
theorem c5_sanitize_idempotent_deterministic :
    (∀ x : List Char, sanitize_filename (sanitize_filename x) = sanitize_filename x) ∧
    (∀ x y : List Char, x = y → sanitize_filename x = sanitize_filename y) :=
  ⟨sanitize_idem, fun _ _ h => h ▸ rfl⟩

/-- Witness for C5 at the concrete input `"Cool Wall/paper"`. -/
theorem c5_witness :
    sanitize_filename (sanitize_filename strCoolWall) = sanitize_filename strCoolWall ∧
    sanitize_filename strCoolWall = sanitize_filename strCoolWall :=
  ⟨c5_sanitize_idempotent_deterministic.1 strCoolWall,
    c5_sanitize_idempotent_deterministic.2 strCoolWall strCoolWall rfl⟩

/-! ## Claim C6 -/

/-- C6: for every input the sanitizer terminates (it is a total function)
and returns a non-empty string containing no forbidden character and no
whitespace; `sanitize("")` and `sanitize("...")` both return `"unknown"`. -/
theorem c6_sanitize_total_safe :
    (∀ x : List Char, sanitize_filename x ≠ [] ∧
      (sanitize_filename x).all (fun c => !isForbiddenChar c && !isPySpace c) = true) ∧
    sanitize_filename [] = strUnknown ∧ sanitize_filename strDots = strUnknown := by
  refine ⟨fun x => ⟨sanitize_nonempty x, ?_⟩, by decide, by decide⟩
  rw [List.all_eq_true]
  intro c hc
  simp [sanitize_no_forbidden x c hc, sanitize_no_space x c hc]

/-- Witness for C6 at the concrete input `"Cool Wall/paper"`. -/
theorem c6_witness :
    sanitize_filename strCoolWall ≠ [] ∧
    (sanitize_filename strCoolWall).all
      (fun c => !isForbiddenChar c && !isPySpace c) = true :=
  c6_sanitize_total_safe.1 strCoolWall

/-! ## Claim C7 -/

/-- C7: `extract_archive` dispatches on the filename suffix — tar-family
suffixes (`.tar.gz`, `.tgz`, `.tar.xz`, `.tar.bz2`) use the tar path and
`.zip` the zip path — and never raises: an unrecognized suffix such as
`plugin.exe` returns failure as a no-op, and an exception raised by either
extractor is caught and reported as failure. -/
theorem c7_extract_dispatch_never_raises :
    (∀ (path : List Char) (tarRes zipRes : Except (List Char) Unit),
      (TAR_SUFFIXES.any (fun s => listEndsWith s path) = true →
        extract_archive tarRes zipRes path =
          match tarRes with
          | Except.ok _ => true
          | Except.error _ => false) ∧
      (TAR_SUFFIXES.any (fun s => listEndsWith s path) = false →
        extract_archive tarRes zipRes path =
          (if listEndsWith extZip path then
            match zipRes with
            | Except.ok _ => true
            | Except.error _ => false
          else false)) ∧
      (∀ e e', extract_archive (Except.error e) (Except.error e') path = false)) ∧
    TAR_SUFFIXES.any (fun s => listEndsWith s strPluginTarGz) = true ∧
    (TAR_SUFFIXES.any (fun s => listEndsWith s strPluginZip) = false ∧
      listEndsWith extZip strPluginZip = true) ∧
    ∀ tarRes zipRes, extract_archive tarRes zipRes strPluginExe = false := by
  refine ⟨fun path tarRes zipRes => ⟨?_, ?_, ?_⟩, by decide, ⟨by decide, by decide⟩, ?_⟩
  · intro ht
    unfold extract_archive
    rw [if_pos ht]
    cases tarRes <;> rfl
  · intro ht
    unfold extract_archive
    rw [if_neg (by simp [ht])]
    by_cases hz : listEndsWith extZip path = true
    · rw [if_pos hz, if_pos hz]
      cases zipRes <;> rfl
    · rw [if_neg hz, if_neg hz]
  · intro e e'
    unfold extract_archive
    by_cases ht : TAR_SUFFIXES.any (fun s => listEndsWith s path) = true
    · rw [if_pos ht]; rfl
    · rw [if_neg ht]
      by_cases hz : listEndsWith extZip path = true
      · rw [if_pos hz]; rfl
      · rw [if_neg hz]
  · intro tarRes zipRes
    unfold extract_archive
    rw [if_neg (by decide), if_neg (by decide)]

/-- Witness for C7: both extractors succeeding sends `plugin.tar.gz` through
the tar path and `plugin.zip` through the zip path; `plugin.exe` fails as a
no-op; a raising tar extractor turns `plugin.tar.gz` into failure. -/
theorem c7_witness :
    extract_archive (Except.ok ()) (Except.ok ()) strPluginTarGz = true ∧
    extract_archive (Except.ok ()) (Except.ok ()) strPluginZip = true ∧
    extract_archive (Except.ok ()) (Except.ok ()) strPluginExe = false ∧
    extract_archive (Except.error []) (Except.error []) strPluginTarGz = false := by
  refine ⟨?_, ?_, ?_, ?_⟩
  · exact (c7_extract_dispatch_never_raises.1 strPluginTarGz
      (Except.ok ()) (Except.ok ())).1 (by decide)
  · exact ((c7_extract_dispatch_never_raises.1 strPluginZip
      (Except.ok ()) (Except.ok ())).2.1 (by decide)).trans (by decide)
  · exact c7_extract_dispatch_never_raises.2.2.2 (Except.ok ()) (Except.ok ())
  · exact (c7_extract_dispatch_never_raises.1 strPluginTarGz
      (Except.error []) (Except.error [])).2.2 [] []

/-! ## Claim C10 -/

/-- C10 (implicit): the orchestrator's source-archive test accepts a filename
exactly when one of the five markers occurs as a substring anywhere in the
lowercased filename, not only as a suffix.  `notes.zip.txt` passes the test
(and, from an empty filesystem, its link is downloaded) although it carries no
recognized archive suffix, and the suffix-dispatching extractor then fails on
it for every extractor oracle. -/
theorem c10_substring_archive_test :
    (∀ (f e : List Char), e ∈ ARCHIVE_EXTS → listIsSub e (pyLower f) = true →
      hasArchiveSub f = true) ∧
    (∀ f : List Char, hasArchiveSub f = true →
      ∃ e, e ∈ ARCHIVE_EXTS ∧ listIsSub e (pyLower f) = true) ∧
    hasArchiveSub strNotesZipTxt = true ∧
    specArchiveSuffixTest strNotesZipTxt = false ∧
    stepLink dloAlwaysOk strP dlNotes [] = ([(strP, strNotesZipTxt)], ⟨1, 0, 0⟩) ∧
    ∀ tarRes zipRes, extract_archive tarRes zipRes strNotesZipTxt = false := by
  refine ⟨?_, ?_, by decide, by decide, by decide, ?_⟩
  · intro f e he hsub
    exact List.any_eq_true.mpr ⟨e, he, hsub⟩
  · intro f h
    exact List.any_eq_true.mp h
  · intro tarRes zipRes
    unfold extract_archive
    rw [if_neg (by decide), if_neg (by decide)]

/-- Witness for C10's acceptance direction at `notes.zip.txt` with the
`.zip` marker. -/
theorem c10_witness : hasArchiveSub strNotesZipTxt = true :=
  c10_substring_archive_test.1 strNotesZipTxt extZip (by decide) (by decide)

/-! ## Claim C8 -/

/-- C8 as stated is false when "carries no recognized archive extension" is
read as a suffix test.  The link to `https://a/notes.zip.txt` derives the
filename `notes.zip.txt` — which ends in no recognized archive extension —
and its URL has no `download` substring, so the claim demands that the link
be skipped; the code accepts the filename through its substring test and
downloads the link under its own name. -/
theorem c8_counterexample :
    ¬ (∀ (plugin : List Char) (dl : DownloadLink),
        dl.url ≠ [] →
        specArchiveSuffixTest (derivedFilename dl) = false →
        (containsDownload dl.url = true →
          resolveFilename plugin dl = some (plugin ++ extTarGz)) ∧
        (containsDownload dl.url = false → resolveFilename plugin dl = none)) := by
  intro h
  have h2 := (h strP dlNotes (by decide) (by decide)).2 (by decide)
  exact absurd h2 (by decide)

/-- C8 amended: with the hypothesis corrected to the source's test — no
archive marker occurs as a substring of the lowercased derived filename —
the dichotomy holds: a URL containing `download` proceeds to download under
the synthesized name `<sanitizedItemName>.tar.gz`, and any other link
resolves to nothing and is passed over with no download attempted (the link
step leaves the filesystem untouched, increments no counter, and never
consults the download oracle). -/
theorem c8_amended (plugin : List Char) (dl : DownloadLink)
    (hna : hasArchiveSub (derivedFilename dl) = false) :
    (containsDownload dl.url = true →
      resolveFilename plugin dl = some (plugin ++ extTarGz)) ∧
    (containsDownload dl.url = false →
      resolveFilename plugin dl = none ∧
      ∀ (dlo : List Char → DLOutcome) (fs : CrawlFS),
        stepLink dlo plugin dl fs = (fs, ⟨0, 0, 0⟩)) := by
  constructor
  · intro hcd
    unfold resolveFilename
    rw [if_neg (by simp [hna]), if_pos hcd]
  · intro hcd
    have hres : resolveFilename plugin dl = none := by
      unfold resolveFilename
      rw [if_neg (by simp [hna]), if_neg (by simp [hcd])]
    refine ⟨hres, fun dlo fs => ?_⟩
    have hrp : resolvePath plugin dl = none := by
      unfold resolvePath
      by_cases hu : dl.url = []
      · rw [if_pos hu]
      · rw [if_neg hu, hres]; rfl
    unfold stepLink
    rw [hrp]

/-- Witness for C8 amended at the indirect-download link `https://x/download`
(synthesized name) and at the readme link (skipped). -/
theorem c8_witness :
    resolveFilename strP dlIndirect = some (strP ++ extTarGz) ∧
    resolveFilename strP dlReadme = none :=
  ⟨(c8_amended strP dlIndirect (by decide)).1 (by decide),
    ((c8_amended strP dlReadme (by decide)).2 (by decide)).1⟩

/-! ## Downloader step lemmas -/

theorem download_go_429 (o : Nat → AttemptOutcome) (rem attempt : Nat)
    (file : Option (List Nat)) (ws : List Nat) (h : o attempt = AttemptOutcome.status429) :
    download_go o (rem + 1) attempt file ws =
      download_go o rem (attempt + 1) file (ws ++ [RETRY_DELAY * (attempt + 1)]) := by
  simp only [download_go, h]

theorem download_go_connRetry (o : Nat → AttemptOutcome) (rem attempt : Nat)
    (file : Option (List Nat)) (ws : List Nat) (h : o attempt = AttemptOutcome.connError)
    (hlt : attempt < MAX_RETRIES - 1) :
    download_go o (rem + 1) attempt file ws =
      download_go o rem (attempt + 1) file (ws ++ [RETRY_DELAY * (attempt + 1)]) := by
  simp only [download_go, h]
  rw [if_pos hlt]

theorem download_go_connLast (o : Nat → AttemptOutcome) (rem attempt : Nat)
    (file : Option (List Nat)) (ws : List Nat) (h : o attempt = AttemptOutcome.connError)
    (hge : ¬ attempt < MAX_RETRIES - 1) :
    download_go o (rem + 1) attempt file ws = ⟨false, file, ws, attempt + 1⟩ := by
  simp only [download_go, h]
  rw [if_neg hge]

theorem download_go_brokenRetry (o : Nat → AttemptOutcome) (rem attempt : Nat)
    (file : Option (List Nat)) (ws : List Nat) (w : List Nat)
    (h : o attempt = AttemptOutcome.streamBroken w) (hlt : attempt < MAX_RETRIES - 1) :
    download_go o (rem + 1) attempt file ws =
      download_go o rem (attempt + 1) (some w) (ws ++ [RETRY_DELAY * (attempt + 1)]) := by
  simp only [download_go, h]
  rw [if_pos hlt]

theorem download_go_no_write (o : Nat → AttemptOutcome)
    (h : ∀ n, o n = AttemptOutcome.status429 ∨ o n = AttemptOutcome.connError) :
    ∀ (rem attempt : Nat) (file : Option (List Nat)) (ws : List Nat),
      (download_go o rem attempt file ws).ok = false ∧
      (download_go o rem attempt file ws).file = file := by
  intro rem
  induction rem with
  | zero => intro attempt file ws; exact ⟨rfl, rfl⟩
  | succ k ih =>
    intro attempt file ws
    rcases h attempt with ha | ha
    · rw [download_go_429 o k attempt file ws ha]
      exact ih (attempt + 1) file _
    · by_cases hlt : attempt < MAX_RETRIES - 1
      · rw [download_go_connRetry o k attempt file ws ha hlt]
        exact ih (attempt + 1) file _
      · rw [download_go_connLast o k attempt file ws ha hlt]
        exact ⟨rfl, rfl⟩

/-! ## Claim C1 -/

/-- C1: against a transport that always answers status 429, `download_file`
makes exactly `MAX_RETRIES` attempts and returns failure; it sleeps after
every attempt — `RETRY_DELAY * 1`, `RETRY_DELAY * 2`, `RETRY_DELAY * 3`
seconds — so the cumulative wait is `RETRY_DELAY * (1 + 2 + 3)` (with
`MAX_RETRIES = 3`, `RETRY_DELAY = 10`: waits 10, 20, 30, total 60 seconds),
and the destination is untouched. -/
theorem c1_retry_exhaustion_429 (o : Nat → AttemptOutcome) (file0 : Option (List Nat))
    (h : ∀ n, o n = AttemptOutcome.status429) :
    (download_file o file0).ok = false ∧
    (download_file o file0).attempts = MAX_RETRIES ∧
    (download_file o file0).waits = [RETRY_DELAY * 1, RETRY_DELAY * 2, RETRY_DELAY * 3] ∧
    (download_file o file0).waits.sum = RETRY_DELAY * (1 + 2 + 3) ∧
    (download_file o file0).file = file0 := by
  have key : download_file o file0 =
      ⟨false, file0, [RETRY_DELAY * 1, RETRY_DELAY * 2, RETRY_DELAY * 3], 3⟩ := by
    show download_go o (2 + 1) 0 file0 [] = _
    rw [download_go_429 o 2 0 file0 [] (h 0)]
    show download_go o (1 + 1) 1 file0 [RETRY_DELAY * 1] = _
    rw [download_go_429 o 1 1 file0 [RETRY_DELAY * 1] (h 1)]
    show download_go o (0 + 1) 2 file0 [RETRY_DELAY * 1, RETRY_DELAY * 2] = _
    rw [download_go_429 o 0 2 file0 [RETRY_DELAY * 1, RETRY_DELAY * 2] (h 2)]
    rfl
  rw [key]
  refine ⟨rfl, rfl, rfl, rfl, rfl⟩

/-- Witness for C1 at the constant-429 oracle with no pre-existing file. -/
theorem c1_witness :
    (download_file oracle429 none).ok = false ∧
    (download_file oracle429 none).attempts = MAX_RETRIES ∧
    (download_file oracle429 none).waits =
      [RETRY_DELAY * 1, RETRY_DELAY * 2, RETRY_DELAY * 3] ∧
    (download_file oracle429 none).waits.sum = RETRY_DELAY * (1 + 2 + 3) ∧
    (download_file oracle429 none).file = none :=
  c1_retry_exhaustion_429 oracle429 none (fun _ => rfl)

/-! ## Claim C2 -/

/-- C2 as stated is false: a failed `download_file` can leave a partial file
at the destination.  If the first attempt's stream breaks after writing a
chunk and the remaining attempts fail before writing, `download_file` returns
failure yet the destination holds the partial chunk — and the only check a
later run performs is bare existence, which then reports the path as already
downloaded. -/
theorem c2_counterexample :
    ¬ (∀ o : Nat → AttemptOutcome,
        (download_file o none).ok = false → (download_file o none).file = none) := by
  intro h
  have h2 := h oracleDirty (by decide)
  exact absurd h2 (by decide)

/-- C2 amended: a run whose attempts all fail before any byte is written
(status 429 or a pre-write transport error) returns failure with the
destination exactly as it was; but an attempt that breaks mid-stream leaves
its written prefix at the destination even though the call returns failure. -/
theorem c2_amended :
    (∀ (o : Nat → AttemptOutcome) (file0 : Option (List Nat)),
      (∀ n, o n = AttemptOutcome.status429 ∨ o n = AttemptOutcome.connError) →
      (download_file o file0).ok = false ∧ (download_file o file0).file = file0) ∧
    (∀ (o : Nat → AttemptOutcome) (w : List Nat) (file0 : Option (List Nat)),
      o 0 = AttemptOutcome.streamBroken w →
      (∀ n, 1 ≤ n → o n = AttemptOutcome.connError) →
      (download_file o file0).ok = false ∧ (download_file o file0).file = some w) := by
  constructor
  · intro o file0 h
    exact download_go_no_write o h MAX_RETRIES 0 file0 []
  · intro o w file0 h0 hrest
    have key : download_file o file0 =
        ⟨false, some w, [RETRY_DELAY * 1, RETRY_DELAY * 2], 3⟩ := by
      show download_go o (2 + 1) 0 file0 [] = _
      rw [download_go_brokenRetry o 2 0 file0 [] w h0 (by decide)]
      show download_go o (1 + 1) 1 (some w) [RETRY_DELAY * 1] = _
      rw [download_go_connRetry o 1 1 (some w) [RETRY_DELAY * 1]
        (hrest 1 (by decide)) (by decide)]
      show download_go o (0 + 1) 2 (some w) [RETRY_DELAY * 1, RETRY_DELAY * 2] = _
      rw [download_go_connLast o 0 2 (some w) [RETRY_DELAY * 1, RETRY_DELAY * 2]
        (hrest 2 (by decide)) (by decide)]
    rw [key]
    exact ⟨rfl, rfl⟩

/-- Witness for C2 amended: the constant connection-error oracle leaves no
file; the mid-stream-break oracle leaves the partial chunk `[7]`. -/
theorem c2_witness :
    ((download_file oracleConnErr none).ok = false ∧
      (download_file oracleConnErr none).file = none) ∧
    ((download_file oracleDirty none).ok = false ∧
      (download_file oracleDirty none).file = some [7]) :=
  ⟨c2_amended.1 oracleConnErr none (fun _ => Or.inr rfl),
    c2_amended.2 oracleDirty [7] none rfl (fun n hn => by
      unfold oracleDirty
      rw [if_neg (by omega)])⟩

/-! ## Claim C9 -/

/-- C9 as stated is false: `get_content_details` returns whatever `id` text
the response's content element carries and never compares it against the
queried id.  A server answering the lookup for id `42` with a content element
whose id field is `99` yields a detail record with id `99`. -/
theorem c9_counterexample :
    ¬ (∀ (server : List Char → Xml) (cid : List Char) (d : ContentDetail),
        get_content_details (server cid) = some d → d.id = cid) := by
  intro h
  have h2 := h (fun _ => respMismatched) str42 detailMismatched (by decide)
  exact absurd h2 (by decide)

/-- C9 amended: the id of the returned detail record equals the `id` text of
the first content element of the server's response — the code copies it from
the response without verification — so the claimed invariant holds exactly
when the server echoes the queried id back in that field. -/
theorem c9_amended (server : List Char → Xml) (cid : List Char) (d : ContentDetail)
    (h : get_content_details (server cid) = some d) :
    (∃ c, findDescIn strContentTag (server cid).childrenOf = some c ∧
      d.id = findtext strIdTag [] c) ∧
    (∀ c, findDescIn strContentTag (server cid).childrenOf = some c →
      findtext strIdTag [] c = cid → d.id = cid) := by
  unfold get_content_details at h
  cases hf : findDescIn strContentTag (server cid).childrenOf with
  | none =>
    rw [hf] at h
    exact absurd h (by simp)
  | some c =>
    rw [hf] at h
    have hd : d.id = findtext strIdTag [] c := by
      have h' := Option.some.inj h
      rw [← h']
    refine ⟨⟨c, rfl, hd⟩, fun c' hc' hecho => ?_⟩
    cases hc'
    exact hd.trans hecho

/-- Witness for C9 amended at a server that echoes the queried id `42`. -/
theorem c9_witness :
    (∃ c, findDescIn strContentTag ((fun _ => respEcho) str42).childrenOf = some c ∧
      detailEcho.id = findtext strIdTag [] c) ∧
    (∀ c, findDescIn strContentTag ((fun _ => respEcho) str42).childrenOf = some c →
      findtext strIdTag [] c = str42 → detailEcho.id = str42) :=
  c9_amended (fun _ => respEcho) str42 detailEcho (by decide)

/-! ## Claim C4 -/

/-- C4 as stated is false: a link whose URL names neither an archive nor an
indirect download (for example `https://a/readme.txt`) is passed over by the
orchestrator with a printed message but without incrementing any of the three
counters. -/
theorem c4_counterexample :
    ¬ (∀ (dlo : List Char → DLOutcome) (plugin : List Char) (dl : DownloadLink)
        (fs : CrawlFS),
        (stepLink dlo plugin dl fs).2.downloaded + (stepLink dlo plugin dl fs).2.skipped +
          (stepLink dlo plugin dl fs).2.failed = 1) := by
  intro h
  have h2 := h dloAlwaysOk strP dlReadme []
  exact absurd h2 (by decide)

/-- C4 amended: a link that reaches the skip-or-download stage increments
exactly one counter (skip-because-exists, success, and failure each add one),
but a link with an empty URL or one filtered out as non-source increments
none; an item whose detail lookup yields nothing increments exactly the
failed counter. -/
theorem c4_amended :
    (∀ (dlo : List Char → DLOutcome) (plugin : List Char) (dl : DownloadLink)
      (fs : CrawlFS),
      (stepLink dlo plugin dl fs).2.downloaded + (stepLink dlo plugin dl fs).2.skipped +
          (stepLink dlo plugin dl fs).2.failed =
        if resolvePath plugin dl = none then 0 else 1) ∧
    (∀ (dlo : List Char → DLOutcome) (server : List Char → Xml) (it : ItemSummary)
      (fs : CrawlFS),
      get_content_details (server it.id) = none →
      processItem dlo server it fs = (fs, ⟨0, 0, 1⟩)) := by
  constructor
  · intro dlo plugin dl fs
    unfold stepLink
    cases hrp : resolvePath plugin dl with
    | none => simp
    | some path =>
      simp only [Option.some_ne_none, if_false, reduceCtorEq, if_neg]
      by_cases hin : path ∈ fs
      · simp [hin]
      · cases hout : dlo dl.url <;> simp [hin, hout]
  · intro dlo server it fs h
    unfold processItem
    rw [h]

/-- Witness for C4 amended: an item whose detail response has no content
element counts exactly one failure. -/
theorem c4_witness :
    processItem dloAlwaysOk serverEmpty ⟨strOne, strP⟩ [] = ([], ⟨0, 0, 1⟩) :=
  c4_amended.2 dloAlwaysOk serverEmpty ⟨strOne, strP⟩ [] (by decide)

/-! ## Pipeline lemmas: counters, step cases, membership -/

@[simp]
theorem Counters.add_downloaded (a b : Counters) :
    (a + b).downloaded = a.downloaded + b.downloaded := rfl

@[simp]
theorem Counters.add_skipped (a b : Counters) :
    (a + b).skipped = a.skipped + b.skipped := rfl

@[simp]
theorem Counters.add_failed (a b : Counters) :
    (a + b).failed = a.failed + b.failed := rfl

theorem runLinks_cons (dlo : List Char → DLOutcome) (plugin : List Char)
    (dl : DownloadLink) (rest : List DownloadLink) (fs : CrawlFS) :
    runLinks dlo plugin (dl :: rest) fs =
      ((runLinks dlo plugin rest (stepLink dlo plugin dl fs).1).1,
        (stepLink dlo plugin dl fs).2 +
          (runLinks dlo plugin rest (stepLink dlo plugin dl fs).1).2) := rfl

theorem runItems_cons (dlo : List Char → DLOutcome) (server : List Char → Xml)
    (it : ItemSummary) (rest : List ItemSummary) (fs : CrawlFS) :
    runItems dlo server (it :: rest) fs =
      ((runItems dlo server rest (processItem dlo server it fs).1).1,
        (processItem dlo server it fs).2 +
          (runItems dlo server rest (processItem dlo server it fs).1).2) := rfl

theorem stepLink_nores (dlo : List Char → DLOutcome) (plugin : List Char)
    (dl : DownloadLink) (fs : CrawlFS) (h : resolvePath plugin dl = none) :
    stepLink dlo plugin dl fs = (fs, ⟨0, 0, 0⟩) := by
  simp [stepLink, h]

theorem stepLink_skip (dlo : List Char → DLOutcome) (plugin : List Char)
    (dl : DownloadLink) (fs : CrawlFS) (p : CrawlPath)
    (h : resolvePath plugin dl = some p) (hin : p ∈ fs) :
    stepLink dlo plugin dl fs = (fs, ⟨0, 1, 0⟩) := by
  simp [stepLink, h, hin]

theorem stepLink_success (dlo : List Char → DLOutcome) (plugin : List Char)
    (dl : DownloadLink) (fs : CrawlFS) (p : CrawlPath)
    (h : resolvePath plugin dl = some p) (hnin : p ∉ fs)
    (hdlo : dlo dl.url = DLOutcome.success) :
    stepLink dlo plugin dl fs = (p :: fs, ⟨1, 0, 0⟩) := by
  simp [stepLink, h, hnin, hdlo]

theorem stepLink_failClean (dlo : List Char → DLOutcome) (plugin : List Char)
    (dl : DownloadLink) (fs : CrawlFS) (p : CrawlPath)
    (h : resolvePath plugin dl = some p) (hnin : p ∉ fs)
    (hdlo : dlo dl.url = DLOutcome.failClean) :
    stepLink dlo plugin dl fs = (fs, ⟨0, 0, 1⟩) := by
  simp [stepLink, h, hnin, hdlo]

theorem stepLink_failDirty (dlo : List Char → DLOutcome) (plugin : List Char)
    (dl : DownloadLink) (fs : CrawlFS) (p : CrawlPath)
    (h : resolvePath plugin dl = some p) (hnin : p ∉ fs)
    (hdlo : dlo dl.url = DLOutcome.failDirty) :
    stepLink dlo plugin dl fs = (p :: fs, ⟨0, 0, 1⟩) := by
  simp [stepLink, h, hnin, hdlo]

theorem stepLink_fst_mono (dlo : List Char → DLOutcome) (plugin : List Char)
    (dl : DownloadLink) (fs : CrawlFS) (q : CrawlPath) (hq : q ∈ fs) :
    q ∈ (stepLink dlo plugin dl fs).1 := by
  cases hrp : resolvePath plugin dl with
  | none => rw [stepLink_nores dlo plugin dl fs hrp]; exact hq
  | some p =>
    by_cases hin : p ∈ fs
    · rw [stepLink_skip dlo plugin dl fs p hrp hin]; exact hq
    · cases hdlo : dlo dl.url with
      | success =>
        rw [stepLink_success dlo plugin dl fs p hrp hin hdlo]
        exact List.mem_cons_of_mem p hq
      | failClean =>
        rw [stepLink_failClean dlo plugin dl fs p hrp hin hdlo]
        exact hq
      | failDirty =>
        rw [stepLink_failDirty dlo plugin dl fs p hrp hin hdlo]
        exact List.mem_cons_of_mem p hq

theorem stepLink_fst_mem (dlo : List Char → DLOutcome) (plugin : List Char)
    (dl : DownloadLink) (fs : CrawlFS) (q : CrawlPath)
    (hq : q ∈ (stepLink dlo plugin dl fs).1) :
    q ∈ fs ∨ resolvePath plugin dl = some q := by
  cases hrp : resolvePath plugin dl with
  | none =>
    rw [stepLink_nores dlo plugin dl fs hrp] at hq
    exact Or.inl hq
  | some p =>
    by_cases hin : p ∈ fs
    · rw [stepLink_skip dlo plugin dl fs p hrp hin] at hq
      exact Or.inl hq
    · cases hdlo : dlo dl.url with
      | success =>
        rw [stepLink_success dlo plugin dl fs p hrp hin hdlo] at hq
        rcases List.mem_cons.mp hq with h | h
        · exact Or.inr (by rw [h])
        · exact Or.inl h
      | failClean =>
        rw [stepLink_failClean dlo plugin dl fs p hrp hin hdlo] at hq
        exact Or.inl hq
      | failDirty =>
        rw [stepLink_failDirty dlo plugin dl fs p hrp hin hdlo] at hq
        rcases List.mem_cons.mp hq with h | h
        · exact Or.inr (by rw [h])
        · exact Or.inl h

theorem linkPaths_cons_none (plugin : List Char) (dl : DownloadLink)
    (rest : List DownloadLink) (h : resolvePath plugin dl = none) :
    linkPaths plugin (dl :: rest) = linkPaths plugin rest := by
  unfold linkPaths
  rw [List.filterMap_cons, h]

theorem linkPaths_cons_some (plugin : List Char) (dl : DownloadLink)
    (rest : List DownloadLink) (p : CrawlPath) (h : resolvePath plugin dl = some p) :
    linkPaths plugin (dl :: rest) = p :: linkPaths plugin rest := by
  unfold linkPaths
  rw [List.filterMap_cons, h]

theorem runLinks_fst_mono (dlo : List Char → DLOutcome) (plugin : List Char) :
    ∀ (links : List DownloadLink) (fs : CrawlFS) (q : CrawlPath),
      q ∈ fs → q ∈ (runLinks dlo plugin links fs).1 := by
  intro links
  induction links with
  | nil => intro fs q hq; exact hq
  | cons dl rest ih =>
    intro fs q hq
    rw [runLinks_cons]
    exact ih _ q (stepLink_fst_mono dlo plugin dl fs q hq)

theorem runLinks_fst_mem (dlo : List Char → DLOutcome) (plugin : List Char) :
    ∀ (links : List DownloadLink) (fs : CrawlFS) (q : CrawlPath),
      q ∈ (runLinks dlo plugin links fs).1 → q ∈ fs ∨ q ∈ linkPaths plugin links := by
  intro links
  induction links with
  | nil => intro fs q hq; exact Or.inl hq
  | cons dl rest ih =>
    intro fs q hq
    rw [runLinks_cons] at hq
    rcases ih _ q hq with h | h
    · rcases stepLink_fst_mem dlo plugin dl fs q h with h' | h'
      · exact Or.inl h'
      · right
        rw [linkPaths_cons_some plugin dl rest q h']
        exact List.mem_cons_self q _
    · right
      cases hrp : resolvePath plugin dl with
      | none => rw [linkPaths_cons_none plugin dl rest hrp]; exact h
      | some p =>
        rw [linkPaths_cons_some plugin dl rest p hrp]
        exact List.mem_cons_of_mem p h

/-! ## Second-run behavior of the per-item link loop -/

theorem runLinks_rerun (dlo : List Char → DLOutcome) (plugin : List Char)
    (hnp : ∀ u, dlo u ≠ DLOutcome.failDirty) :
    ∀ (links : List DownloadLink) (fs0 fsX : CrawlFS),
      (linkPaths plugin links).Nodup →
      (∀ p ∈ linkPaths plugin links, (p ∈ fsX ↔ p ∈ (runLinks dlo plugin links fs0).1)) →
      (runLinks dlo plugin links fsX).1 = fsX ∧
      (runLinks dlo plugin links fsX).2.downloaded = 0 ∧
      (runLinks dlo plugin links fsX).2.skipped =
        (runLinks dlo plugin links fs0).2.skipped +
          (runLinks dlo plugin links fs0).2.downloaded ∧
      (runLinks dlo plugin links fsX).2.failed = (runLinks dlo plugin links fs0).2.failed := by
  intro links
  induction links with
  | nil => intro fs0 fsX _ _; exact ⟨rfl, rfl, rfl, rfl⟩
  | cons dl rest ih =>
    intro fs0 fsX hnd hiff
    cases hrp : resolvePath plugin dl with
    | none =>
      rw [linkPaths_cons_none plugin dl rest hrp] at hnd hiff
      have hs0 := stepLink_nores dlo plugin dl fs0 hrp
      have hsX := stepLink_nores dlo plugin dl fsX hrp
      have hiff' : ∀ q ∈ linkPaths plugin rest,
          (q ∈ fsX ↔ q ∈ (runLinks dlo plugin rest fs0).1) := by
        intro q hq
        have := hiff q hq
        simpa only [runLinks_cons, hs0] using this
      obtain ⟨h1, h2, h3, h4⟩ := ih fs0 fsX hnd hiff'
      simp only [runLinks_cons, hs0, hsX]
      refine ⟨h1, ?_, ?_, ?_⟩ <;>
        simp only [Counters.add_downloaded, Counters.add_skipped, Counters.add_failed] <;>
        omega
    | some p =>
      rw [linkPaths_cons_some plugin dl rest p hrp] at hnd hiff
      have hnd' := (List.nodup_cons.mp hnd).2
      have hpnotin := (List.nodup_cons.mp hnd).1
      have hiffp := hiff p (List.mem_cons_self p _)
      by_cases hin0 : p ∈ fs0
      · -- first run skips the link, so does the second
        have hs0 := stepLink_skip dlo plugin dl fs0 p hrp hin0
        have hpX : p ∈ fsX := by
          rw [hiffp]
          simp only [runLinks_cons, hs0]
          exact runLinks_fst_mono dlo plugin rest fs0 p hin0
        have hsX := stepLink_skip dlo plugin dl fsX p hrp hpX
        have hiff' : ∀ q ∈ linkPaths plugin rest,
            (q ∈ fsX ↔ q ∈ (runLinks dlo plugin rest fs0).1) := by
          intro q hq
          have := hiff q (List.mem_cons_of_mem p hq)
          simpa only [runLinks_cons, hs0] using this
        obtain ⟨h1, h2, h3, h4⟩ := ih fs0 fsX hnd' hiff'
        simp only [runLinks_cons, hs0, hsX]
        refine ⟨h1, ?_, ?_, ?_⟩ <;>
          simp only [Counters.add_downloaded, Counters.add_skipped, Counters.add_failed] <;>
          omega
      · cases hdlo : dlo dl.url with
        | success =>
          -- first run downloads the link, the second skips it
          have hs0 := stepLink_success dlo plugin dl fs0 p hrp hin0 hdlo
          have hpX : p ∈ fsX := by
            rw [hiffp]
            simp only [runLinks_cons, hs0]
            exact runLinks_fst_mono dlo plugin rest (p :: fs0) p (List.mem_cons_self p fs0)
          have hsX := stepLink_skip dlo plugin dl fsX p hrp hpX
          have hiff' : ∀ q ∈ linkPaths plugin rest,
              (q ∈ fsX ↔ q ∈ (runLinks dlo plugin rest (p :: fs0)).1) := by
            intro q hq
            have := hiff q (List.mem_cons_of_mem p hq)
            simpa only [runLinks_cons, hs0] using this
          obtain ⟨h1, h2, h3, h4⟩ := ih (p :: fs0) fsX hnd' hiff'
          simp only [runLinks_cons, hs0, hsX]
          refine ⟨h1, ?_, ?_, ?_⟩ <;>
            simp only [Counters.add_downloaded, Counters.add_skipped, Counters.add_failed] <;>
            omega
        | failClean =>
          -- the link fails in both runs
          have hs0 := stepLink_failClean dlo plugin dl fs0 p hrp hin0 hdlo
          have hpX : p ∉ fsX := by
            intro hp
            have hp2 := hiffp.mp hp
            simp only [runLinks_cons, hs0] at hp2
            rcases runLinks_fst_mem dlo plugin rest fs0 p hp2 with h | h
            · exact hin0 h
            · exact hpnotin h
          have hsX := stepLink_failClean dlo plugin dl fsX p hrp hpX hdlo
          have hiff' : ∀ q ∈ linkPaths plugin rest,
              (q ∈ fsX ↔ q ∈ (runLinks dlo plugin rest fs0).1) := by
            intro q hq
            have := hiff q (List.mem_cons_of_mem p hq)
            simpa only [runLinks_cons, hs0] using this
          obtain ⟨h1, h2, h3, h4⟩ := ih fs0 fsX hnd' hiff'
          simp only [runLinks_cons, hs0, hsX]
          refine ⟨h1, ?_, ?_, ?_⟩ <;>
            simp only [Counters.add_downloaded, Counters.add_skipped, Counters.add_failed] <;>
            omega
        | failDirty => exact absurd hdlo (hnp dl.url)

/-! ## Item-level lemmas -/

theorem processItem_nodet (dlo : List Char → DLOutcome) (server : List Char → Xml)
    (it : ItemSummary) (fs : CrawlFS) (h : get_content_details (server it.id) = none) :
    processItem dlo server it fs = (fs, ⟨0, 0, 1⟩) := by
  simp [processItem, h]

theorem processItem_emptyDls (dlo : List Char → DLOutcome) (server : List Char → Xml)
    (it : ItemSummary) (fs : CrawlFS) (d : ContentDetail)
    (h : get_content_details (server it.id) = some d) (hd : d.downloads = []) :
    processItem dlo server it fs = (fs, ⟨0, 0, 1⟩) := by
  simp [processItem, h, hd]

theorem processItem_links (dlo : List Char → DLOutcome) (server : List Char → Xml)
    (it : ItemSummary) (fs : CrawlFS) (d : ContentDetail)
    (h : get_content_details (server it.id) = some d) (hd : d.downloads ≠ []) :
    processItem dlo server it fs =
      runLinks dlo (sanitize_filename it.name) d.downloads fs := by
  simp [processItem, h, hd]

theorem itemPaths_nodet (server : List Char → Xml) (it : ItemSummary)
    (h : get_content_details (server it.id) = none) : itemPaths server it = [] := by
  simp [itemPaths, h]

theorem itemPaths_emptyDls (server : List Char → Xml) (it : ItemSummary) (d : ContentDetail)
    (h : get_content_details (server it.id) = some d) (hd : d.downloads = []) :
    itemPaths server it = [] := by
  simp [itemPaths, h, hd]

theorem itemPaths_links (server : List Char → Xml) (it : ItemSummary) (d : ContentDetail)
    (h : get_content_details (server it.id) = some d) (hd : d.downloads ≠ []) :
    itemPaths server it = linkPaths (sanitize_filename it.name) d.downloads := by
  simp [itemPaths, h, hd]

theorem allPaths_cons (server : List Char → Xml) (it : ItemSummary)
    (rest : List ItemSummary) :
    allPaths server (it :: rest) = itemPaths server it ++ allPaths server rest := rfl

theorem processItem_fst_mono (dlo : List Char → DLOutcome) (server : List Char → Xml)
    (it : ItemSummary) (fs : CrawlFS) (q : CrawlPath) (hq : q ∈ fs) :
    q ∈ (processItem dlo server it fs).1 := by
  cases hdet : get_content_details (server it.id) with
  | none => rw [processItem_nodet dlo server it fs hdet]; exact hq
  | some d =>
    by_cases hd : d.downloads = []
    · rw [processItem_emptyDls dlo server it fs d hdet hd]; exact hq
    · rw [processItem_links dlo server it fs d hdet hd]
      exact runLinks_fst_mono dlo _ d.downloads fs q hq

theorem processItem_fst_mem (dlo : List Char → DLOutcome) (server : List Char → Xml)
    (it : ItemSummary) (fs : CrawlFS) (q : CrawlPath)
    (hq : q ∈ (processItem dlo server it fs).1) :
    q ∈ fs ∨ q ∈ itemPaths server it := by
  cases hdet : get_content_details (server it.id) with
  | none =>
    rw [processItem_nodet dlo server it fs hdet] at hq
    exact Or.inl hq
  | some d =>
    by_cases hd : d.downloads = []
    · rw [processItem_emptyDls dlo server it fs d hdet hd] at hq
      exact Or.inl hq
    · rw [processItem_links dlo server it fs d hdet hd] at hq
      rcases runLinks_fst_mem dlo _ d.downloads fs q hq with h | h
      · exact Or.inl h
      · right
        rw [itemPaths_links server it d hdet hd]
        exact h

theorem runItems_fst_mono (dlo : List Char → DLOutcome) (server : List Char → Xml) :
    ∀ (items : List ItemSummary) (fs : CrawlFS) (q : CrawlPath),
      q ∈ fs → q ∈ (runItems dlo server items fs).1 := by
  intro items
  induction items with
  | nil => intro fs q hq; exact hq
  | cons it rest ih =>
    intro fs q hq
    rw [runItems_cons]
    exact ih _ q (processItem_fst_mono dlo server it fs q hq)

theorem runItems_fst_mem (dlo : List Char → DLOutcome) (server : List Char → Xml) :
    ∀ (items : List ItemSummary) (fs : CrawlFS) (q : CrawlPath),
      q ∈ (runItems dlo server items fs).1 → q ∈ fs ∨ q ∈ allPaths server items := by
  intro items
  induction items with
  | nil => intro fs q hq; exact Or.inl hq
  | cons it rest ih =>
    intro fs q hq
    rw [runItems_cons] at hq
    rcases ih _ q hq with h | h
    · rcases processItem_fst_mem dlo server it fs q h with h' | h'
      · exact Or.inl h'
      · right
        rw [allPaths_cons]
        exact List.mem_append_left _ h'
    · right
      rw [allPaths_cons]
      exact List.mem_append_right _ h

/-! ## No skips happen on a filesystem free of the run's paths -/

theorem runLinks_no_skip (dlo : List Char → DLOutcome) (plugin : List Char) :
    ∀ (links : List DownloadLink) (fs : CrawlFS),
      (linkPaths plugin links).Nodup →
      (∀ p ∈ linkPaths plugin links, p ∉ fs) →
      (runLinks dlo plugin links fs).2.skipped = 0 := by
  intro links
  induction links with
  | nil => intro fs _ _; rfl
  | cons dl rest ih =>
    intro fs hnd hout
    cases hrp : resolvePath plugin dl with
    | none =>
      rw [linkPaths_cons_none plugin dl rest hrp] at hnd hout
      have hs := stepLink_nores dlo plugin dl fs hrp
      simp only [runLinks_cons, hs, Counters.add_skipped]
      have := ih fs hnd hout
      omega
    | some p =>
      rw [linkPaths_cons_some plugin dl rest p hrp] at hnd hout
      have hpf : p ∉ fs := hout p (List.mem_cons_self p _)
      have hnd' := (List.nodup_cons.mp hnd).2
      have hpnr := (List.nodup_cons.mp hnd).1
      have hout' : ∀ q ∈ linkPaths plugin rest, q ∉ fs :=
        fun q hq => hout q (List.mem_cons_of_mem p hq)
      have houtp : ∀ q ∈ linkPaths plugin rest, q ∉ p :: fs := by
        intro q hq hmem
        rcases List.mem_cons.mp hmem with h | h
        · exact hpnr (h ▸ hq)
        · exact hout' q hq h
      cases hdlo : dlo dl.url with
      | success =>
        have hs := stepLink_success dlo plugin dl fs p hrp hpf hdlo
        simp only [runLinks_cons, hs, Counters.add_skipped]
        have := ih (p :: fs) hnd' houtp
        omega
      | failClean =>
        have hs := stepLink_failClean dlo plugin dl fs p hrp hpf hdlo
        simp only [runLinks_cons, hs, Counters.add_skipped]
        have := ih fs hnd' hout'
        omega
      | failDirty =>
        have hs := stepLink_failDirty dlo plugin dl fs p hrp hpf hdlo
        simp only [runLinks_cons, hs, Counters.add_skipped]
        have := ih (p :: fs) hnd' houtp
        omega

theorem processItem_no_skip (dlo : List Char → DLOutcome) (server : List Char → Xml)
    (it : ItemSummary) (fs : CrawlFS)
    (hnd : (itemPaths server it).Nodup)
    (hout : ∀ p ∈ itemPaths server it, p ∉ fs) :
    (processItem dlo server it fs).2.skipped = 0 := by
  cases hdet : get_content_details (server it.id) with
  | none => rw [processItem_nodet dlo server it fs hdet]
  | some d =>
    by_cases hd : d.downloads = []
    · rw [processItem_emptyDls dlo server it fs d hdet hd]
    · rw [processItem_links dlo server it fs d hdet hd]
      have hip := itemPaths_links server it d hdet hd
      rw [hip] at hnd hout
      exact runLinks_no_skip dlo _ d.downloads fs hnd hout

theorem runItems_no_skip (dlo : List Char → DLOutcome) (server : List Char → Xml) :
    ∀ (items : List ItemSummary) (fs : CrawlFS),
      (allPaths server items).Nodup →
      (∀ p ∈ allPaths server items, p ∉ fs) →
      (runItems dlo server items fs).2.skipped = 0 := by
  intro items
  induction items with
  | nil => intro fs _ _; rfl
  | cons it rest ih =>
    intro fs hnd hout
    rw [allPaths_cons] at hnd hout
    have hnds := List.nodup_append.mp hnd
    have houtIt : ∀ p ∈ itemPaths server it, p ∉ fs :=
      fun p hp => hout p (List.mem_append_left _ hp)
    have houtRest : ∀ p ∈ allPaths server rest, p ∉ (processItem dlo server it fs).1 := by
      intro p hp hmem
      rcases processItem_fst_mem dlo server it fs p hmem with h | h
      · exact hout p (List.mem_append_right _ hp) h
      · exact hnds.2.2 h hp
    simp only [runItems_cons, Counters.add_skipped]
    have h1 := processItem_no_skip dlo server it fs hnds.1 houtIt
    have h2 := ih (processItem dlo server it fs).1 hnds.2.1 houtRest
    omega

/-! ## Second-run behavior of the whole pipeline -/

theorem runItems_rerun (dlo : List Char → DLOutcome) (server : List Char → Xml)
    (hnp : ∀ u, dlo u ≠ DLOutcome.failDirty) :
    ∀ (items : List ItemSummary) (fs0 fsX : CrawlFS),
      (allPaths server items).Nodup →
      (∀ p ∈ allPaths server items, (p ∈ fsX ↔ p ∈ (runItems dlo server items fs0).1)) →
      (runItems dlo server items fsX).1 = fsX ∧
      (runItems dlo server items fsX).2.downloaded = 0 ∧
      (runItems dlo server items fsX).2.skipped =
        (runItems dlo server items fs0).2.skipped +
          (runItems dlo server items fs0).2.downloaded ∧
      (runItems dlo server items fsX).2.failed = (runItems dlo server items fs0).2.failed := by
  intro items
  induction items with
  | nil => intro fs0 fsX _ _; exact ⟨rfl, rfl, rfl, rfl⟩
  | cons it rest ih =>
    intro fs0 fsX hnd hiff
    rw [allPaths_cons] at hnd hiff
    have hnds := List.nodup_append.mp hnd
    cases hdet : get_content_details (server it.id) with
    | none =>
      have hp0 := processItem_nodet dlo server it fs0 hdet
      have hpX := processItem_nodet dlo server it fsX hdet
      have hiff' : ∀ q ∈ allPaths server rest,
          (q ∈ fsX ↔ q ∈ (runItems dlo server rest fs0).1) := by
        intro q hq
        have := hiff q (List.mem_append_right _ hq)
        simpa only [runItems_cons, hp0] using this
      obtain ⟨h1, h2, h3, h4⟩ := ih fs0 fsX hnds.2.1 hiff'
      simp only [runItems_cons, hp0, hpX]
      refine ⟨h1, ?_, ?_, ?_⟩ <;>
        simp only [Counters.add_downloaded, Counters.add_skipped, Counters.add_failed] <;>
        omega
    | some d =>
      by_cases hdl : d.downloads = []
      · have hp0 := processItem_emptyDls dlo server it fs0 d hdet hdl
        have hpX := processItem_emptyDls dlo server it fsX d hdet hdl
        have hiff' : ∀ q ∈ allPaths server rest,
            (q ∈ fsX ↔ q ∈ (runItems dlo server rest fs0).1) := by
          intro q hq
          have := hiff q (List.mem_append_right _ hq)
          simpa only [runItems_cons, hp0] using this
        obtain ⟨h1, h2, h3, h4⟩ := ih fs0 fsX hnds.2.1 hiff'
        simp only [runItems_cons, hp0, hpX]
        refine ⟨h1, ?_, ?_, ?_⟩ <;>
          simp only [Counters.add_downloaded, Counters.add_skipped, Counters.add_failed] <;>
          omega
      · have hp0 := processItem_links dlo server it fs0 d hdet hdl
        have hpX := processItem_links dlo server it fsX d hdet hdl
        have hitem := itemPaths_links server it d hdet hdl
        have hndl : (linkPaths (sanitize_filename it.name) d.downloads).Nodup := by
          have := hnds.1
          rwa [hitem] at this
        have hiffLinks : ∀ q ∈ linkPaths (sanitize_filename it.name) d.downloads,
            (q ∈ fsX ↔ q ∈ (runLinks dlo (sanitize_filename it.name) d.downloads fs0).1) := by
          intro q hq
          have hqitem : q ∈ itemPaths server it := by rw [hitem]; exact hq
          have hqn : q ∉ allPaths server rest := fun hq2 => hnds.2.2 hqitem hq2
          have h0 := hiff q (List.mem_append_left _ hqitem)
          constructor
          · intro hqX
            have hmem := h0.mp hqX
            simp only [runItems_cons, hp0] at hmem
            rcases runItems_fst_mem dlo server rest _ q hmem with h | h
            · exact h
            · exact absurd h hqn
          · intro hq1
            apply h0.mpr
            simp only [runItems_cons, hp0]
            exact runItems_fst_mono dlo server rest _ q hq1
        obtain ⟨g1, g2, g3, g4⟩ := runLinks_rerun dlo (sanitize_filename it.name) hnp
          d.downloads fs0 fsX hndl hiffLinks
        have hiff' : ∀ q ∈ allPaths server rest,
            (q ∈ fsX ↔ q ∈ (runItems dlo server rest
              (runLinks dlo (sanitize_filename it.name) d.downloads fs0).1).1) := by
          intro q hq
          have := hiff q (List.mem_append_right _ hq)
          simpa only [runItems_cons, hp0] using this
        obtain ⟨h1, h2, h3, h4⟩ :=
          ih (runLinks dlo (sanitize_filename it.name) d.downloads fs0).1 fsX hnds.2.1 hiff'
        simp only [runItems_cons, hp0, hpX, g1]
        refine ⟨h1, ?_, ?_, ?_⟩ <;>
          simp only [Counters.add_downloaded, Counters.add_skipped, Counters.add_failed] <;>
          omega

/-! ## Claim C3 -/

/-- C3 as stated is false: two links of one item can resolve to the same
destination path (here two hosts serving `cool.tar.gz`), so the first run
downloads one and counts the other as skipped, and the second run skips both
— the second run's skipped counter (2) exceeds the first run's downloaded
counter (1). -/
theorem c3_counterexample :
    ¬ (∀ (dlo : List Char → DLOutcome) (server : List Char → Xml)
        (items : List ItemSummary),
        (runItems dlo server items (runItems dlo server items []).1).2.downloaded = 0 ∧
        (runItems dlo server items (runItems dlo server items []).1).2.skipped =
          (runItems dlo server items []).2.downloaded) := by
  intro h
  have h2 := (h dloAlwaysOk serverTwoLinks itemsOne).2
  exact absurd h2 (by decide)

/-- C3 amended: provided the resolved destination paths of the run are
pairwise distinct and no failed download leaves a file behind, running the
pipeline twice against the same remote responses from an empty filesystem
gives a second run with zero new downloads whose skipped counter equals the
first run's downloaded counter; and any link whose destination already exists
is counted as skipped while the filesystem is left unchanged and the download
oracle is never consulted (the step's result is the same for every oracle). -/
theorem c3_amended (dlo : List Char → DLOutcome) (server : List Char → Xml)
    (items : List ItemSummary)
    (hnp : ∀ u, dlo u ≠ DLOutcome.failDirty)
    (hnd : (allPaths server items).Nodup) :
    (runItems dlo server items (runItems dlo server items []).1).2.downloaded = 0 ∧
    (runItems dlo server items (runItems dlo server items []).1).2.skipped =
      (runItems dlo server items []).2.downloaded ∧
    (∀ (plugin : List Char) (dl : DownloadLink) (fs : CrawlFS) (p : CrawlPath),
      resolvePath plugin dl = some p → p ∈ fs →
      stepLink dlo plugin dl fs = (fs, ⟨0, 1, 0⟩) ∧
      ∀ dlo' : List Char → DLOutcome, stepLink dlo' plugin dl fs = (fs, ⟨0, 1, 0⟩)) := by
  obtain ⟨h1, h2, h3, h4⟩ := runItems_rerun dlo server hnp items []
    (runItems dlo server items []).1 hnd (fun p hp => Iff.rfl)
  have hzero : (runItems dlo server items []).2.skipped = 0 :=
    runItems_no_skip dlo server items [] hnd (fun p hp => List.not_mem_nil p)
  refine ⟨h2, by omega, ?_⟩
  intro plugin dl fs p hrp hin
  exact ⟨stepLink_skip dlo plugin dl fs p hrp hin,
    fun dlo' => stepLink_skip dlo' plugin dl fs p hrp hin⟩

/-- Witness for C3 amended at the one-link, always-succeeding instance. -/
theorem c3_witness :
    (runItems dloAlwaysOk serverOneLink itemsOne
        (runItems dloAlwaysOk serverOneLink itemsOne []).1).2.downloaded = 0 ∧
    (runItems dloAlwaysOk serverOneLink itemsOne
        (runItems dloAlwaysOk serverOneLink itemsOne []).1).2.skipped =
      (runItems dloAlwaysOk serverOneLink itemsOne []).2.downloaded :=
  ⟨(c3_amended dloAlwaysOk serverOneLink itemsOne
      (fun u h => DLOutcome.noConfusion h) (by decide)).1,
    (c3_amended dloAlwaysOk serverOneLink itemsOne
      (fun u h => DLOutcome.noConfusion h) (by decide)).2.1⟩
